import Mathlib

/-!
Verification of the `expressions` package (`src/expressions/expressions.py`)
against its natural-language specification.

The module defines an expression-tree data model (`Expression` with
terminals `Number`, `Symbol` and binary operator subclasses `Add`, `Sub`,
`Mul`, `Div`, `Pow`), precedence-aware rendering (`Operator.__str__`),
a generic memoized explicit-stack postorder fold (`postvisitor`), and a
`singledispatch` differentiation rule table (`differentiate`).

The embedding below translates those functions into Lean:

* `Expr` is the tree of well-formed expression nodes; `OpKind` carries the
  per-subclass `precedence` and `symbol` class attributes.
* `DVal` is the Python value produced by the differentiation rules: either
  a bare `int` (the rules for `Number` and `Symbol` return the literals
  `0`/`1`, not `Number` nodes) or an `Expression` tree.  The arithmetic
  helpers mirror Python's binary dispatch (`__add__`/`__radd__` etc.),
  including the auto-wrapping of numeric literals into `Number`.
* `differentiate` is the spec-level interface `differentiate(expr, var)`.
  Modelled from the spec: the source contains the rule table and the fold
  engine but no driver composing them, and the spec (sections 4.3 and 6)
  defines the interface as the bottom-up fold of the rule table over the
  tree, children before parent; here that fold is given by structural
  recursion.  `var` is `Option String` because the rules receive it through
  `**kwargs`: `none` models calling without the `var` keyword, in which
  case the `Symbol` rule's `kwargs["var"]` raises `KeyError`.
* `postvisitor` is the explicit-stack loop, over an arena (`List (List Nat)`)
  of node identities, since the memo dict is keyed by object identity and
  the node graph may share instances; `fuel` bounds the `while` loop and a
  per-node counter records how often the fold function is invoked (it does
  not influence control flow).
* `dunderBin`/`dunderRBin` model the operator methods `__add__`…`__pow__`
  and the reflected path Python takes when the Expression is on the right;
  `symbolInit`/`numberInit` model `Symbol.__init__`/`Number.__init__`.
-/

deriving instance DecidableEq for Except

namespace Expressions

/-- The five binary operator subclasses of `Operator` in the source
(`Add`, `Sub`, `Mul`, `Div`, `Pow`). -/
inductive OpKind where
  | add
  | sub
  | mul
  | div
  | pow
deriving DecidableEq

/-- The `symbol` class attribute of each operator subclass
(`"+"`, `"-"`, `"*"`, `"/"`, `"^"`). -/
def OpKind.symbol : OpKind → String
  | .add => "+"
  | .sub => "-"
  | .mul => "*"
  | .div => "/"
  | .pow => "^"

/-- The `precedence` class attribute of each operator subclass
(`Add = 0`, `Sub = 0`, `Mul = 1`, `Div = 1`, `Pow = 2`). -/
def OpKind.precedence : OpKind → Nat
  | .add => 0
  | .sub => 0
  | .mul => 1
  | .div => 1
  | .pow => 2

/-- A well-formed expression tree.  `number` and `symbol` are the two
`Terminal` subclasses; `op k a b` is an `Operator` node of subclass `k`
with `operands = (a, b)`.  `unregistered name` models a node whose runtime
class is an `Expression` subclass that is *not* registered with the
`singledispatch` `differentiate` table (the extension point the spec's
section 4.3 describes); `differentiate`'s base case fires on it.
`Number` payloads are modelled as integers (every input in the claims is
an `int`). -/
inductive Expr where
  | number (v : Int)
  | symbol (name : String)
  | op (k : OpKind) (a b : Expr)
  | unregistered (name : String)
deriving DecidableEq

/-- `precedence` of a node: `Terminal.precedence = 3`, operator nodes take
their subclass attribute.  A bare unregistered subclass has no
`precedence` attribute in the source; the value chosen here (the
`Terminal` default) is never inspected by any theorem below. -/
def Expr.precedence : Expr → Nat
  | .number _ => 3
  | .symbol _ => 3
  | .op k _ _ => k.precedence
  | .unregistered _ => 3

/-- `__str__` of a node.  `Terminal.__str__` is `str(self.value)`;
`Operator.__str__` is `" ".join((paren(operands[0]), symbol,
paren(operands[1])))` where the inner helper `paren` wraps an operand in
parentheses exactly when `operand.precedence < self.precedence` (the
helper is inlined at both occurrences here).  Rendering of an
`unregistered` node is not defined by the source (no `precedence`/`symbol`
attributes); it is mapped to its class name and used by no theorem. -/
def Expr.str : Expr → String
  | .number v => toString v
  | .symbol s => s
  | .op k a b =>
      (if a.precedence < k.precedence then "(" ++ a.str ++ ")" else a.str)
        ++ " " ++ k.symbol ++ " " ++
        (if b.precedence < k.precedence then "(" ++ b.str ++ ")" else b.str)
  | .unregistered n => n

/-- `render_side` exactly as the spec words it (section 4.1):
`render_side(child) = "(" + render(child) + ")"` iff
`precedence(child) < precedence(self)`, else `render(child)` unchanged.
Stated against the parent's precedence value.  This is the spec-side
definition, to be compared with the source-side `Expr.str`. -/
def render_side (child : Expr) (parentPrec : Nat) : String :=
  if child.precedence < parentPrec then "(" ++ child.str ++ ")" else child.str

/-- A Python value passed to a terminal constructor or an operator method:
an `int`, a `str`, or an `Expression` instance.  (`numbers.Number` is
modelled by the `num` case.) -/
inductive PyVal where
  | num (n : Int)
  | str (s : String)
  | ex (e : Expr)
deriving DecidableEq

/-- A Python exception surfaced to the caller. -/
inductive PyErr where
  | typeError (msg : String)
  | keyError (key : String)
  | notImplementedError (msg : String)
deriving DecidableEq

/-- `Symbol.__init__`: raises `TypeError("Symbol value must be a string.")`
unless the payload is a `str`; otherwise stores the value (producing the
`symbol` node). -/
def symbolInit : PyVal → Except PyErr Expr
  | .str s => .ok (.symbol s)
  | _ => .error (.typeError "Symbol value must be a string.")

/-- `Number.__init__`: raises `TypeError("Number value must be a number.")`
unless the payload is a `numbers.Number`; otherwise stores the value. -/
def numberInit : PyVal → Except PyErr Expr
  | .num n => .ok (.number n)
  | _ => .error (.typeError "Number value must be a number.")

/-- An operand slot of a just-constructed operator node: either a proper
`Expression`, or a raw non-`Expression` value stored as-is (the operator
methods perform no validation beyond wrapping numbers). -/
inductive Operand where
  | ofExpr (e : Expr)
  | raw (v : PyVal)
deriving DecidableEq

/-- An operator node as `Add(self, other)` etc. constructs it: subclass kind
plus the two stored operands (each possibly a raw non-`Expression`
value). -/
structure ONode where
  kind : OpKind
  left : Operand
  right : Operand
deriving DecidableEq

/-- `Expression.__add__` and the other forward operator methods:
`if isinstance(other, numbers.Number): other = Number(other)` and then
`return Add(self, other)` (resp. `Sub`/`Mul`/`Div`/`Pow`).  Note the
method never raises and never returns `NotImplemented`: a non-numeric,
non-`Expression` operand is stored in the node unchanged. -/
def dunderBin (k : OpKind) (self : Expr) (other : PyVal) : ONode :=
  match other with
  | .num n => ⟨k, .ofExpr self, .ofExpr (.number n)⟩
  | .ex f => ⟨k, .ofExpr self, .ofExpr f⟩
  | .str s => ⟨k, .ofExpr self, .raw (.str s)⟩

/-- Python's evaluation of `other OP self` where `self` is an `Expression`.
If `other` is itself an `Expression` its forward method runs (`dunderBin`).
Otherwise `other`'s own method returns `NotImplemented` (an `int` or `str`
does not know `Expression`), so Python tries `Expression.__radd__` etc.:
a number is wrapped and a node built (`__rpow__` builds it through
`pow(Number(other), self)`, i.e. `Expression.__pow__`, same node shape);
anything else returns `NotImplemented` again and Python raises
`TypeError`. -/
def dunderRBin (k : OpKind) (other : PyVal) (self : Expr) : Except PyErr ONode :=
  match other with
  | .ex f => .ok (dunderBin k f (.ex self))
  | .num n => .ok ⟨k, .ofExpr (.number n), .ofExpr self⟩
  | .str _ => .error (.typeError "unsupported operand type(s)")

/-- A value produced by the differentiation rules: the `Number` and
`Symbol` rules return the bare Python ints `0`/`1`, while the operator
rules build `Expression` trees. -/
inductive DVal where
  | int (n : Int)
  | ex (e : Expr)
deriving DecidableEq

/-- Auto-wrapping performed by the operator methods on a numeric operand:
a bare int becomes `Number(n)`, an `Expression` is taken as-is. -/
def DVal.wrap : DVal → Expr
  | .int n => .number n
  | .ex e => e

/-- Python `x + y` as it occurs in the rules: `int + int` adds; with an
`Expression` on either side the (possibly reflected) operator method
builds `Add` with the int side wrapped into `Number`. -/
def DVal.add : DVal → DVal → DVal
  | .int m, .int n => .int (m + n)
  | d, d' => .ex (.op .add d.wrap d'.wrap)

/-- Python `x - y`, same dispatch as `DVal.add`. -/
def DVal.sub : DVal → DVal → DVal
  | .int m, .int n => .int (m - n)
  | d, d' => .ex (.op .sub d.wrap d'.wrap)

/-- Python `x * y` where `y` is an `Expression` (an int on the left goes
through `__rmul__`, wrapping it into `Number`): always a `Mul` node. -/
def DVal.mulE (d : DVal) (e : Expr) : DVal := .ex (.op .mul d.wrap e)

/-- Python `x * y` where `x` is an `Expression` (`Expression.__mul__`,
wrapping a numeric `y` into `Number`): always a `Mul` node. -/
def Expr.mulD (e : Expr) (d : DVal) : DVal := .ex (.op .mul e d.wrap)

/-- Python `x / y` where `y` is an `Expression` (an int on the left goes
through `__rtruediv__`): always a `Div` node. -/
def DVal.divE (d : DVal) (e : Expr) : DVal := .ex (.op .div d.wrap e)

/-- The spec-level interface `differentiate(expr, var)` (spec sections 4.3
and 6): the bottom-up fold of the `singledispatch` rule table over the
tree, children folded before their parent.  Modelled from the spec: the
source holds the rule table and the fold engine but no composing driver,
so the fold is structural recursion here.  Each branch transcribes the
registered rule:

* `Number`: `return 0` (a bare int);
* `Symbol`: `return 1 if expr.value == kwargs["var"] else 0`; without the
  `var` keyword, `kwargs["var"]` raises `KeyError('var')`;
* `Add`/`Sub`: `o[0] + o[1]` / `o[0] - o[1]`;
* `Mul`: `o[0] * expr.operands[1] + o[1] * expr.operands[0]`;
* `Div`: `(o[0] * expr.operands[1] - expr.operands[0] * o[1]) /
  (expr.operands[1]**2)`;
* `Pow`: `expr.operands[1] * (expr.operands[0] ** (expr.operands[1] - 1))
  * o[0]` — note `expr.operands[1] - 1` is `Expression.__sub__`, producing
  the node `Sub(b, Number(1))`, never a simplified literal;
* any other variant hits the `singledispatch` base case, which raises
  `NotImplementedError(f"Cannot differentiate a {type(expr).__name__}")`. -/
def differentiate (var : Option String) : Expr → Except PyErr DVal
  | .number _ => .ok (.int 0)
  | .symbol s =>
      match var with
      | none => .error (.keyError "var")
      | some v => .ok (.int (if s = v then 1 else 0))
  | .op k a b => do
      let da ← differentiate var a
      let db ← differentiate var b
      match k with
      | .add => pure (da.add db)
      | .sub => pure (da.sub db)
      | .mul => pure ((da.mulE b).add (db.mulE a))
      | .div => pure (((da.mulE b).sub (a.mulD db)).divE (.op .pow b (.number 2)))
      | .pow => pure (.ex (.op .mul (.op .mul b (.op .pow a (.op .sub b (.number 1)))) da.wrap))
  | .unregistered name => .error (.notImplementedError ("Cannot differentiate a " ++ name))

/-- `true` when the tree contains at least one `Symbol` node. -/
def Expr.hasSymbol : Expr → Bool
  | .symbol _ => true
  | .op _ a b => a.hasSymbol || b.hasSymbol
  | _ => false

/-- `true` when every node's class is one registered with the
`differentiate` dispatch table (no `unregistered` node). -/
def Expr.registered : Expr → Bool
  | .op _ a b => a.registered && b.registered
  | .unregistered _ => false
  | _ => true

/-- `true` on an `Except.ok` result. -/
def isOkE (r : Except PyErr DVal) : Bool :=
  match r with
  | .ok _ => true
  | .error _ => false

/-!
## The traversal engine

`postvisitor` walks a possibly-sharing node graph with an explicit stack and
a memo dict keyed by object identity (`Expression` defines no `__eq__` or
`__hash__`, so dict membership is identity).  The graph is embedded as an
arena: node identities are indices into a list, and `ops A i` is the list of
operand identities of node `i` (empty for terminals and for indices outside
the arena).  A graph built by the module's constructors is acyclic, which in
the arena reads: every operand's index is smaller than its node's index.
-/

/-- The operand identities of node `i` in arena `A`. -/
def ops (A : List (List Nat)) (i : Nat) : List Nat := A.getD i []

/-- Acyclicity of an arena: every operand of a node has a smaller index. -/
def Acyclic (A : List (List Nat)) : Prop :=
  ∀ i, i < A.length → ∀ j ∈ A.getD i [], j < i

instance (A : List (List Nat)) : Decidable (Acyclic A) :=
  inferInstanceAs (Decidable (∀ i, i < A.length → ∀ j ∈ A.getD i [], j < i))

/-- Node `i` is reachable from `r` by following operand edges (including
`r` itself). -/
inductive Reach (A : List (List Nat)) : Nat → Nat → Prop where
  | refl (i : Nat) : Reach A i i
  | step {i j k : Nat} : Reach A i j → k ∈ ops A j → Reach A i k

/-- The memo dict: node identity to cached fold result. -/
abbrev Memo (R : Type) := Nat → Option R

/-- `(visited[o] for o in operands)`: the cached results of all listed
nodes, or `none` as soon as one of them is not in the memo (i.e. exactly
when `unvisited_children` would be non-empty). -/
def lookupAll {R : Type} (V : Memo R) : List Nat → Option (List R)
  | [] => some []
  | j :: l =>
      match V j, lookupAll V l with
      | some r, some rs => some (r :: rs)
      | _, _ => none

/-- The `while stack:` loop of `postvisitor`, one fuel unit per iteration
(`none` = fuel exhausted before the stack emptied).  The stack's head is
its top (Python append/pop work at the end of the list).  On each pop of
`e`:

* if every operand is in the memo (`lookupAll … = some rs`, i.e.
  `unvisited_children` is empty) the loop runs
  `visited[e] = fn(e, *(visited[o] for o in e.operands))` — note there is
  no check whether `e` is *already* in the memo, so a node popped again
  later is recomputed;
* otherwise it pushes `e` back and then each unvisited operand in order,
  so the last one ends on top.

`c` counts, per node identity, how many times `fn` has been invoked on it;
it is instrumentation only and influences nothing.  On success the loop
returns the final memo and counter (`postvisitor` in the source then
returns `visited[expr]`). -/
def postvisitor {R : Type} (A : List (List Nat)) (fn : Nat → List R → R) :
    Nat → List Nat → Memo R → (Nat → Nat) → Option (Memo R × (Nat → Nat))
  | 0, _, _, _ => none
  | _ + 1, [], V, c => some (V, c)
  | fuel + 1, e :: rest, V, c =>
      match lookupAll V (ops A e) with
      | some rs =>
          postvisitor A fn fuel rest
            (fun j => if j = e then some (fn e rs) else V j)
            (fun j => if j = e then c j + 1 else c j)
      | none =>
          postvisitor A fn fuel
            ((((ops A e).filter (fun o => (V o).isNone)).reverse) ++ e :: rest) V c

/-- Every memoized node's entry is `fn` applied to the node and its
operands' memoized results — the children are fully resolved before the
parent, and the memo records the fold. -/
def Coherent {R : Type} (A : List (List Nat)) (fn : Nat → List R → R) (V : Memo R) : Prop :=
  ∀ i r, V i = some r → ∃ rs, lookupAll V (ops A i) = some rs ∧ r = fn i rs

/-- Every memoized node has been folded at least once. -/
def CntPos {R : Type} (V : Memo R) (c : Nat → Nat) : Prop :=
  ∀ i, (V i).isSome → 1 ≤ c i

/-- What the loop does to a single stack entry `e`: for some step count
`f`, with any fuel margin and any stack below, the loop reaches the state
with `e` consumed; the memo only grows (existing entries keep their
values), `e` ends memoized and folded at least once, every change is
confined to nodes reachable from `e`, and the invariants persist. -/
def StepSpec {R : Type} (A : List (List Nat)) (fn : Nat → List R → R)
    (V : Memo R) (c : Nat → Nat) (e : Nat) : Prop :=
  ∃ f V' c',
    (∀ rest fuel, postvisitor A fn (f + fuel) (e :: rest) V c
        = postvisitor A fn fuel rest V' c') ∧
    (∀ i r, V i = some r → V' i = some r) ∧
    (V' e).isSome ∧
    (∀ i, ¬ V' i = V i → Reach A e i) ∧
    (∀ i, c i ≤ c' i) ∧
    1 ≤ c' e ∧
    Coherent A fn V' ∧ CntPos V' c'

/-- `StepSpec` lifted to a list of pending stack entries. -/
def ListSpec {R : Type} (A : List (List Nat)) (fn : Nat → List R → R)
    (V : Memo R) (c : Nat → Nat) (L : List Nat) : Prop :=
  ∃ f V' c',
    (∀ rest fuel, postvisitor A fn (f + fuel) (L ++ rest) V c
        = postvisitor A fn fuel rest V' c') ∧
    (∀ i r, V i = some r → V' i = some r) ∧
    (∀ u ∈ L, (V' u).isSome) ∧
    (∀ i, ¬ V' i = V i → ∃ u ∈ L, Reach A u i) ∧
    (∀ i, c i ≤ c' i) ∧
    Coherent A fn V' ∧ CntPos V' c'

/-!
## Claims about construction, rendering and the differentiation rules
-/

/-- C1 (counterexample): differentiating `pow(number(2), symbol("x"))` with
respect to `x` does NOT fail — the call returns a result (`isOkE`), so the
claim that it "fails explicitly with an error, rather than returning any
result tree" is false on the code. -/
theorem c1_counterexample :
    isOkE (differentiate (some "x") (.op .pow (.number 2) (.symbol "x"))) = true := by
  rfl

/-- C1 (amended): differentiating `pow(number(2), symbol("x"))` with respect
to `x` does not fail; the `Pow` rule applies the naive power rule
`b * a**(b - 1) * da` regardless of whether the exponent depends on the
variable, returning the tree
`mul(mul(symbol("x"), pow(number(2), sub(symbol("x"), number(1)))), number(0))`
— a silently incorrect derivative (its `da` factor is the literal `0`). -/
theorem c1_amended :
    differentiate (some "x") (.op .pow (.number 2) (.symbol "x"))
      = .ok (.ex (.op .mul
          (.op .mul (.symbol "x") (.op .pow (.number 2) (.op .sub (.symbol "x") (.number 1))))
          (.number 0))) := by
  rfl

/-- C3 (counterexample): differentiating `pow(symbol("x"), number(3))` with
respect to `x` does not produce the claimed shape
`mul(mul(number(3), pow(symbol("x"), number(2))), number(1))` — the inner
`pow` exponent is not the literal `number(2)`. -/
theorem c3_counterexample :
    differentiate (some "x") (.op .pow (.symbol "x") (.number 3))
      ≠ .ok (.ex (.op .mul
          (.op .mul (.number 3) (.op .pow (.symbol "x") (.number 2)))
          (.number 1))) := by
  decide

/-- C3 (amended): differentiating `pow(symbol("x"), number(3))` with respect
to `x` yields
`mul(mul(number(3), pow(symbol("x"), sub(number(3), number(1)))), number(1))`:
the exponent of the inner `pow` node is the unsimplified difference node
`sub(number(3), number(1))` built by `Expression.__sub__`, not the single
literal `number(2)`. -/
theorem c3_amended :
    differentiate (some "x") (.op .pow (.symbol "x") (.number 3))
      = .ok (.ex (.op .mul
          (.op .mul (.number 3)
            (.op .pow (.symbol "x") (.op .sub (.number 3) (.number 1))))
          (.number 1))) := by
  rfl

/-- C4 (counterexample): `differentiate(number(5), "x")` does not equal the
`Number` expression node `number(0)` — the `Number` rule returns the bare
int `0`, so differentiation does not always return an `Expression` tree. -/
theorem c4_counterexample :
    differentiate (some "x") (.number 5) ≠ .ok (.ex (.number 0)) := by
  decide

/-- C4 (amended): the terminal derivative results are bare numeric values,
not `Number` expression nodes: `differentiate(number(5), "x") = 0`,
`differentiate(symbol("x"), "x") = 1`, `differentiate(symbol("y"), "x") = 0`
(Python ints). -/
theorem c4_amended :
    differentiate (some "x") (.number 5) = .ok (.int 0) ∧
    differentiate (some "x") (.symbol "x") = .ok (.int 1) ∧
    differentiate (some "x") (.symbol "y") = .ok (.int 0) := by
  exact ⟨rfl, rfl, rfl⟩

/-- C5 (counterexample): `symbol("x") + "oops"` does not signal any
composition failure: `Expression.__add__` silently constructs the `Add`
node with the raw string stored as its right operand (the method's return
type here is a node, not a fallible result — no error path exists). -/
theorem c5_counterexample :
    dunderBin .add (.symbol "x") (.str "oops")
      = ⟨.add, .ofExpr (.symbol "x"), .raw (.str "oops")⟩ := by
  rfl

/-- C5 (amended): for every binary combinator, an operand that is neither
an `Expression` nor numeric is handled asymmetrically: with the
`Expression` on the left, the forward operator method silently constructs
the `Operator` node with the raw operand embedded (no failure); only with
the `Expression` on the right does composition fail — the reflected method
returns `NotImplemented` and Python raises `TypeError` — and then no node
is constructed. -/
theorem c5_amended :
    ∀ (k : OpKind) (e : Expr) (s : String),
      dunderBin k e (.str s) = ⟨k, .ofExpr e, .raw (.str s)⟩ ∧
      dunderRBin k (.str s) e = .error (.typeError "unsupported operand type(s)") :=
  fun _ _ _ => ⟨rfl, rfl⟩

/-- C6: rendering an `Operator` node produces
`render_side(left) ++ " " ++ glyph ++ " " ++ render_side(right)`, and
`render_side` wraps a child in parentheses exactly when its precedence is
strictly below the parent's — never at equal precedence. -/
theorem c6_parenthesization :
    (∀ (k : OpKind) (a b : Expr),
        (Expr.op k a b).str
          = render_side a k.precedence ++ " " ++ k.symbol ++ " "
              ++ render_side b k.precedence) ∧
    (∀ (c : Expr) (p : Nat), ¬ c.precedence < p → render_side c p = c.str) ∧
    (∀ (c : Expr) (p : Nat), c.precedence < p → render_side c p = "(" ++ c.str ++ ")") := by
  refine ⟨fun k a b => rfl, fun c p h => ?_, fun c p h => ?_⟩
  · simp [render_side, h]
  · simp [render_side, h]

/-- Witness for C6 at a concrete input: a `Sub` child at precedence equal
to its `Sub` parent's is not parenthesized (so `a - (b - c)` renders with
the inner subtraction bare). -/
theorem c6_witness :
    ¬ (Expr.op .sub (.symbol "b") (.symbol "c")).precedence < OpKind.sub.precedence ∧
    render_side (Expr.op .sub (.symbol "b") (.symbol "c")) OpKind.sub.precedence
      = (Expr.op .sub (.symbol "b") (.symbol "c")).str :=
  ⟨by decide, c6_parenthesization.2.1 _ _ (by decide)⟩

/-- C7: the differentiation fold on a node variant with no rule in the
table hits the `singledispatch` base case, which raises
`NotImplementedError` whose message names the offending variant's class,
rather than falling through to any default computation. -/
theorem c7_unsupported_variant :
    ∀ (var : Option String) (name : String),
      differentiate var (.unregistered name)
        = .error (.notImplementedError ("Cannot differentiate a " ++ name)) :=
  fun _ _ => rfl

/-- C8: `differentiate(mul(symbol("x"), symbol("x")), "x")` yields exactly
`add(mul(1, symbol("x")), mul(1, symbol("x")))` — each child's derivative
(the bare int `1`, wrapped into `number(1)` by `__rmul__`) multiplied by
the other *original* operand, with no algebraic simplification. -/
theorem c8_product_rule_shape :
    differentiate (some "x") (.op .mul (.symbol "x") (.symbol "x"))
      = .ok (.ex (.op .add
          (.op .mul (.number 1) (.symbol "x"))
          (.op .mul (.number 1) (.symbol "x")))) := by
  rfl

/-- C9: the terminal constructors validate their payload: `Symbol.__init__`
raises `TypeError` on any non-string payload and `Number.__init__` raises
`TypeError` on any non-numeric payload; on the valid payloads they produce
the terminal nodes. -/
theorem c9_terminal_validation :
    ∀ v : PyVal,
      ((∀ s, v ≠ PyVal.str s) →
        symbolInit v = .error (.typeError "Symbol value must be a string.")) ∧
      ((∀ n, v ≠ PyVal.num n) →
        numberInit v = .error (.typeError "Number value must be a number.")) ∧
      (∀ s, symbolInit (PyVal.str s) = .ok (.symbol s)) ∧
      (∀ n, numberInit (PyVal.num n) = .ok (.number n)) := by
  intro v
  refine ⟨?_, ?_, fun s => rfl, fun n => rfl⟩
  · intro h
    cases v with
    | num n => rfl
    | str s => exact absurd rfl (h s)
    | ex e => rfl
  · intro h
    cases v with
    | num n => exact absurd rfl (h n)
    | str s => rfl
    | ex e => rfl

/-- Witness for C9 at concrete inputs: `Symbol(7)` and `Number("a")` both
fail construction with the source's `TypeError` messages. -/
theorem c9_witness :
    symbolInit (PyVal.num 7) = .error (.typeError "Symbol value must be a string.") ∧
    numberInit (PyVal.str "a") = .error (.typeError "Number value must be a number.") :=
  ⟨(c9_terminal_validation (PyVal.num 7)).1 (by simp),
   (c9_terminal_validation (PyVal.str "a")).2.1 (by simp)⟩

/-- C10: the differentiation fold reads the `var` keyword only in the
`Symbol` rule: on any expression (built from the registered variants) that
contains at least one `Symbol` node, differentiating without the `var`
keyword raises `KeyError('var')`, while on an expression containing no
`Symbol` node it succeeds even though `var` was omitted. -/
theorem c10_var_only_symbol :
    ∀ e : Expr, e.registered = true →
      (e.hasSymbol = true → differentiate none e = .error (.keyError "var")) ∧
      (e.hasSymbol = false → ∃ d, differentiate none e = .ok d) := by
  intro e
  induction e with
  | number v =>
      exact fun _ => ⟨fun h => by simp [Expr.hasSymbol] at h, fun _ => ⟨.int 0, rfl⟩⟩
  | symbol s =>
      exact fun _ => ⟨fun _ => rfl, fun h => by simp [Expr.hasSymbol] at h⟩
  | op k a b iha ihb =>
      intro hreg
      rw [show (Expr.op k a b).registered = (a.registered && b.registered) from rfl,
        Bool.and_eq_true] at hreg
      constructor
      · intro hs
        rw [show (Expr.op k a b).hasSymbol = (a.hasSymbol || b.hasSymbol) from rfl,
          Bool.or_eq_true] at hs
        by_cases ha : a.hasSymbol = true
        · have h1 := (iha hreg.1).1 ha
          simp only [differentiate]
          rw [h1]
          rfl
        · have hb : b.hasSymbol = true := by
            cases hs with
            | inl h => exact absurd h ha
            | inr h => exact h
          obtain ⟨da, hda⟩ := (iha hreg.1).2 (by revert ha; cases a.hasSymbol <;> simp)
          have h2 := (ihb hreg.2).1 hb
          simp only [differentiate]
          rw [hda, h2]
          rfl
      · intro hs
        rw [show (Expr.op k a b).hasSymbol = (a.hasSymbol || b.hasSymbol) from rfl,
          Bool.or_eq_false_iff] at hs
        obtain ⟨da, hda⟩ := (iha hreg.1).2 hs.1
        obtain ⟨db, hdb⟩ := (ihb hreg.2).2 hs.2
        simp only [differentiate]
        rw [hda, hdb]
        cases k <;> exact ⟨_, rfl⟩
  | unregistered n =>
      intro hreg
      simp [Expr.registered] at hreg

/-- Witness for C10 at concrete inputs: `add(symbol("x"), number(1))`
contains a `Symbol` and differentiating it without `var` raises
`KeyError('var')`. -/
theorem c10_witness :
    (Expr.op .add (.symbol "x") (.number 1)).registered = true ∧
    (Expr.op .add (.symbol "x") (.number 1)).hasSymbol = true ∧
    differentiate none (Expr.op .add (.symbol "x") (.number 1))
      = .error (.keyError "var") :=
  ⟨rfl, rfl, (c10_var_only_symbol (Expr.op .add (.symbol "x") (.number 1)) (by rfl)).1 (by rfl)⟩

/-!
## The traversal engine: correctness of `postvisitor`

The loop is proved to terminate and compute the bottom-up fold on every
acyclic arena, by strong induction on node index (operands have smaller
indices).  Along the way the per-node invocation counter is tracked: every
reachable node is folded at least once — but, as `c2_counterexample`
shows, possibly more than once, because a popped node is refolded whenever
its operands are all memoized, with no check that the node itself already
is.
-/

theorem mem_ops_lt {A : List (List Nat)} (hA : Acyclic A) {i j : Nat}
    (hj : j ∈ ops A i) : j < i := by
  by_cases h : i < A.length
  · exact hA i h j hj
  · rw [ops, List.getD_eq_default] at hj
    · exact absurd hj (List.not_mem_nil j)
    · omega

theorem reach_le {A : List (List Nat)} (hA : Acyclic A) {r i : Nat}
    (h : Reach A r i) : i ≤ r := by
  induction h with
  | refl => exact le_refl _
  | step hr hk ih => exact le_trans (le_of_lt (mem_ops_lt hA hk)) ih

theorem reach_trans {A : List (List Nat)} {a b c : Nat}
    (h1 : Reach A a b) (h2 : Reach A b c) : Reach A a c := by
  induction h2 with
  | refl => exact h1
  | step hr hk ih => exact Reach.step ih hk

theorem lookupAll_congr {R : Type} {V V' : Memo R} {l : List Nat}
    (h : ∀ j ∈ l, V j = V' j) : lookupAll V l = lookupAll V' l := by
  induction l with
  | nil => rfl
  | cons j l ih =>
      simp only [lookupAll]
      rw [h j (List.mem_cons_self j l), ih (fun x hx => h x (List.mem_cons_of_mem j hx))]

theorem lookupAll_isSome_of {R : Type} {V : Memo R} {l : List Nat}
    (h : ∀ j ∈ l, (V j).isSome) : ∃ rs, lookupAll V l = some rs := by
  induction l with
  | nil => exact ⟨[], rfl⟩
  | cons j l ih =>
      obtain ⟨r, hr⟩ := Option.isSome_iff_exists.mp (h j (List.mem_cons_self j l))
      obtain ⟨rs, hrs⟩ := ih (fun x hx => h x (List.mem_cons_of_mem j hx))
      exact ⟨r :: rs, by rw [lookupAll, hr, hrs]⟩

theorem lookupAll_some_isSome {R : Type} {V : Memo R} {l : List Nat} :
    ∀ {rs : List R}, lookupAll V l = some rs → ∀ j ∈ l, (V j).isSome := by
  induction l with
  | nil => intro rs _ j hj; exact absurd hj (List.not_mem_nil j)
  | cons i l ih =>
      intro rs h j hj
      rw [lookupAll] at h
      rcases hVi : V i with _ | r
      all_goals rw [hVi] at h
      · simp at h
      · rcases hl : lookupAll V l with _ | rs'
        all_goals rw [hl] at h
        · simp at h
        · rcases List.mem_cons.mp hj with rfl | hj'
          · rw [hVi]; rfl
          · exact ih hl j hj'

/-- Processing a list of pending stack entries one after the other, given
that each single entry below the index bound can be processed
(`StepSpec`). -/
theorem postvisitor_processList {R : Type} (A : List (List Nat)) (fn : Nat → List R → R)
    (N : Nat)
    (IH : ∀ u, u < N → ∀ (V : Memo R) (c : Nat → Nat), Coherent A fn V → CntPos V c →
      StepSpec A fn V c u) :
    ∀ (L : List Nat), (∀ u ∈ L, u < N) →
      ∀ (V : Memo R) (c : Nat → Nat), Coherent A fn V → CntPos V c →
        ListSpec A fn V c L := by
  intro L
  induction L with
  | nil =>
      intro _ V c hcoh hcnt
      exact ⟨0, V, c, fun rest fuel => by simp,
        fun i r h => h,
        fun u hu => absurd hu (List.not_mem_nil u),
        fun i h => absurd rfl h,
        fun i => le_refl _, hcoh, hcnt⟩
  | cons u L' ihL =>
      intro hLN V c hcoh hcnt
      obtain ⟨f1, V1, c1, heq1, hext1, hsome1, hreach1, hc1, hce1, hcoh1, hcnt1⟩ :=
        IH u (hLN u (List.mem_cons_self u L')) V c hcoh hcnt
      obtain ⟨f2, V2, c2, heq2, hext2, hsome2, hreach2, hc2, hcoh2, hcnt2⟩ :=
        ihL (fun x hx => hLN x (List.mem_cons_of_mem u hx)) V1 c1 hcoh1 hcnt1
      refine ⟨f1 + f2, V2, c2, ?_, ?_, ?_, ?_, ?_, hcoh2, hcnt2⟩
      · intro rest fuel
        have h1 : f1 + f2 + fuel = f1 + (f2 + fuel) := by omega
        rw [h1, show (u :: L') ++ rest = u :: (L' ++ rest) from rfl,
          heq1 (L' ++ rest) (f2 + fuel), heq2 rest fuel]
      · exact fun i r h => hext2 i r (hext1 i r h)
      · intro x hx
        rcases List.mem_cons.mp hx with rfl | hx'
        · obtain ⟨r, hr⟩ := Option.isSome_iff_exists.mp hsome1
          rw [hext2 x r hr]; rfl
        · exact hsome2 x hx'
      · intro i hne
        by_cases h1 : V1 i = V i
        · have h2 : ¬ V2 i = V1 i := by rw [h1]; exact hne
          obtain ⟨x, hx, hrx⟩ := hreach2 i h2
          exact ⟨x, List.mem_cons_of_mem u hx, hrx⟩
        · exact ⟨u, List.mem_cons_self u L', hreach1 i h1⟩
      · exact fun i => le_trans (hc1 i) (hc2 i)

/-- On an acyclic arena the loop processes any stack entry to completion:
termination and all the `StepSpec` guarantees, by strong induction on the
node index (operands always have smaller indices). -/
theorem postvisitor_process {R : Type} (A : List (List Nat)) (fn : Nat → List R → R)
    (hA : Acyclic A) :
    ∀ (e : Nat) (V : Memo R) (c : Nat → Nat), Coherent A fn V → CntPos V c →
      StepSpec A fn V c e := by
  intro e
  induction e using Nat.strong_induction_on with
  | _ e IH =>
    intro V c hcoh hcnt
    rcases hl : lookupAll V (ops A e) with _ | rs
    · -- some operand is unvisited: push `e` back plus the unvisited ones,
      -- process them (each has a smaller index), then revisit `e`
      have hVe : V e = none := by
        rcases hVe : V e with _ | r
        · rfl
        · obtain ⟨rs', hl', _⟩ := hcoh e r hVe
          rw [hl] at hl'
          exact Option.noConfusion hl'
      obtain ⟨f2, V2, c2, heq2, hext2, hsome2, hreach2, hc2, hcoh2, hcnt2⟩ :=
        postvisitor_processList A fn e IH
          (((ops A e).filter (fun o => (V o).isNone)).reverse)
          (fun u hu => mem_ops_lt hA (List.mem_of_mem_filter (List.mem_reverse.mp hu)))
          V c hcoh hcnt
      have hV2e : V2 e = none := by
        by_cases h : V2 e = V e
        · rw [h, hVe]
        · obtain ⟨u, hu, hru⟩ := hreach2 e h
          have h1 : e ≤ u := reach_le hA hru
          have h2 : u < e := mem_ops_lt hA (List.mem_of_mem_filter (List.mem_reverse.mp hu))
          omega
      have hch : ∀ j ∈ ops A e, (V2 j).isSome := by
        intro j hj
        rcases hVj : V j with _ | r
        · refine hsome2 j ?_
          rw [List.mem_reverse]
          exact List.mem_filter.mpr ⟨hj, by rw [hVj]; rfl⟩
        · rw [hext2 j r hVj]; rfl
      obtain ⟨rs, hrs⟩ := lookupAll_isSome_of hch
      refine ⟨f2 + 2, fun j => if j = e then some (fn e rs) else V2 j,
        fun j => if j = e then c2 j + 1 else c2 j, ?_, ?_, ?_, ?_, ?_, ?_, ?_, ?_⟩
      · intro rest fuel
        have h1 : f2 + 2 + fuel = (f2 + (fuel + 1)) + 1 := by omega
        rw [h1]
        have hstep : postvisitor A fn ((f2 + (fuel + 1)) + 1) (e :: rest) V c
            = postvisitor A fn (f2 + (fuel + 1))
                ((((ops A e).filter (fun o => (V o).isNone)).reverse) ++ e :: rest) V c := by
          simp only [postvisitor, hl]
        rw [hstep, heq2 (e :: rest) (fuel + 1)]
        simp only [postvisitor, hrs]
      · intro i r hir
        by_cases hie : i = e
        · subst hie; rw [hVe] at hir; exact Option.noConfusion hir
        · simp only [if_neg hie]; exact hext2 i r hir
      · simp
      · intro i hne
        by_cases hie : i = e
        · subst hie; exact Reach.refl i
        · simp only [if_neg hie] at hne
          obtain ⟨u, hu, hru⟩ := hreach2 i hne
          have hue : u ∈ ops A e := List.mem_of_mem_filter (List.mem_reverse.mp hu)
          exact reach_trans (Reach.step (Reach.refl e) hue) hru
      · intro i
        by_cases hie : i = e
        · subst hie; simp only [if_pos rfl]; exact le_trans (hc2 i) (Nat.le_succ _)
        · simp only [if_neg hie]; exact hc2 i
      · simp
      · intro i r hir
        by_cases hie : i = e
        · subst hie
          simp only [if_pos rfl] at hir
          have hcong : lookupAll (fun j => if j = i then some (fn i rs) else V2 j) (ops A i)
              = lookupAll V2 (ops A i) := by
            apply lookupAll_congr
            intro j hj
            simp [Nat.ne_of_lt (mem_ops_lt hA hj)]
          exact ⟨rs, by rw [hcong, hrs], (Option.some.inj hir).symm⟩
        · simp only [if_neg hie] at hir
          obtain ⟨rs', hl', hr'⟩ := hcoh2 i r hir
          have hcong : lookupAll (fun j => if j = e then some (fn e rs) else V2 j) (ops A i)
              = lookupAll V2 (ops A i) := by
            apply lookupAll_congr
            intro j hj
            by_cases hje : j = e
            · subst hje
              have hs := lookupAll_some_isSome hl' j hj
              rw [hV2e] at hs
              simp at hs
            · simp [hje]
          exact ⟨rs', by rw [hcong]; exact hl', hr'⟩
      · intro i hsome
        by_cases hie : i = e
        · subst hie; simp
        · simp only [if_neg hie] at hsome ⊢
          exact hcnt2 i hsome
    · -- every operand is memoized: one iteration folds `e` (recomputing it
      -- if it was already memoized — `Coherent` makes the value identical)
      refine ⟨1, fun j => if j = e then some (fn e rs) else V j,
        fun j => if j = e then c j + 1 else c j, ?_, ?_, ?_, ?_, ?_, ?_, ?_, ?_⟩
      · intro rest fuel
        rw [Nat.add_comm 1 fuel]
        simp only [postvisitor, hl]
      · intro i r hir
        by_cases hie : i = e
        · subst hie
          obtain ⟨rs', hl', hr'⟩ := hcoh i r hir
          rw [hl] at hl'
          have hrr : rs' = rs := (Option.some.inj hl').symm
          rw [hr', hrr]
          simp
        · simp only [if_neg hie]; exact hir
      · simp
      · intro i hne
        by_cases hie : i = e
        · subst hie; exact Reach.refl i
        · simp only [if_neg hie] at hne
          exact absurd trivial hne
      · intro i
        by_cases hie : i = e
        · subst hie; simp only [if_pos rfl]; exact Nat.le_succ _
        · simp only [if_neg hie]; exact le_refl _
      · simp
      · intro i r hir
        by_cases hie : i = e
        · subst hie
          simp only [if_pos rfl] at hir
          have hcong : lookupAll (fun j => if j = i then some (fn i rs) else V j) (ops A i)
              = lookupAll V (ops A i) := by
            apply lookupAll_congr
            intro j hj
            simp [Nat.ne_of_lt (mem_ops_lt hA hj)]
          exact ⟨rs, by rw [hcong, hl], (Option.some.inj hir).symm⟩
        · simp only [if_neg hie] at hir
          obtain ⟨rs', hl', hr'⟩ := hcoh i r hir
          have hcong : lookupAll (fun j => if j = e then some (fn e rs) else V j) (ops A i)
              = lookupAll V (ops A i) := by
            apply lookupAll_congr
            intro j hj
            by_cases hje : j = e
            · subst hje
              obtain ⟨re, hre⟩ := Option.isSome_iff_exists.mp (lookupAll_some_isSome hl' j hj)
              obtain ⟨rs2, hl2, hr2⟩ := hcoh j re hre
              rw [hl] at hl2
              have : re = fn j rs := by rw [hr2, (Option.some.inj hl2).symm]
              simp [hre, this]
            · simp [hje]
          exact ⟨rs', by rw [hcong]; exact hl', hr'⟩
      · intro i hsome
        by_cases hie : i = e
        · subst hie; simp
        · simp only [if_neg hie] at hsome ⊢
          exact hcnt i hsome

/-- C2 (counterexample): the fold function is NOT invoked exactly once per
distinct node instance, and a memoized node IS recomputed when popped
again.  Arena: node 0 is a shared leaf, nodes 2 (operands `[0, 1]`) and 3
(operands `[0, 2]`) are two distinct parents of node 0.  Running
`postvisitor` from root 3 terminates (fuel 12 suffices) with the
invocation counter of node 0 equal to 2: node 0 is popped again after its
result was stored and the loop refolds it. -/
theorem c2_counterexample :
    (postvisitor [[], [], [0, 1], [0, 2]] (fun (_ : Nat) (_ : List Nat) => 0) 12 [3]
        (fun _ => none) (fun _ => 0)).map (fun p => p.2 0) = some 2 := by
  rfl

/-- C2 (amended): for every acyclic arena and fold function, `postvisitor`
terminates and invokes the fold function on each distinct reachable node
instance at least once — but not always exactly once: a node pushed more
than once before its first resolution is popped again after its result is
memoized and is then recomputed (`c2_counterexample`), the recomputation
storing the same value.  Every memo entry equals the fold function applied
to the node and its operands' memoized results (children are fully
resolved before their parent), and the root's result is memoized. -/
theorem c2_amended {R : Type} (A : List (List Nat)) (fn : Nat → List R → R) (root : Nat)
    (hA : Acyclic A) :
    ∃ fuel V c,
      postvisitor A fn fuel [root] (fun _ => none) (fun _ => 0) = some (V, c) ∧
      (V root).isSome ∧
      (∀ i r, V i = some r → ∃ rs, lookupAll V (ops A i) = some rs ∧ r = fn i rs) ∧
      (∀ i, Reach A root i → 1 ≤ c i) := by
  obtain ⟨f, V', c', heq, hext, hsome, hreach, hcc, hce, hcoh, hcnt⟩ :=
    postvisitor_process A fn hA root (fun _ => none) (fun _ => 0)
      (fun i r h => Option.noConfusion h) (fun i h => by simp at h)
  refine ⟨f + 1, V', c', ?_, hsome, hcoh, ?_⟩
  · rw [heq [] 1]
    rfl
  · intro i hri
    have hsome' : ∀ j, Reach A root j → (V' j).isSome := by
      intro j hrj
      induction hrj with
      | refl => exact hsome
      | step hr hk ih =>
          obtain ⟨r, hr'⟩ := Option.isSome_iff_exists.mp ih
          obtain ⟨rs, hls, _⟩ := hcoh _ r hr'
          exact lookupAll_some_isSome hls _ hk
    exact hcnt i (hsome' i hri)

/-- Witness for C2 (amended) at a concrete input: the counterexample's
arena is acyclic, and the amended guarantees hold for it. -/
theorem c2_amended_witness :
    Acyclic [[], [], [0, 1], [0, 2]] ∧
    (∃ fuel V c,
      postvisitor [[], [], [0, 1], [0, 2]] (fun (i : Nat) (rs : List Nat) => i + rs.sum)
          fuel [3] (fun _ => none) (fun _ => 0) = some (V, c) ∧
      (V 3).isSome ∧
      (∀ i r, V i = some r →
        ∃ rs, lookupAll V (ops [[], [], [0, 1], [0, 2]] i) = some rs ∧ r = i + rs.sum) ∧
      (∀ i, Reach [[], [], [0, 1], [0, 2]] 3 i → 1 ≤ c i)) :=
  ⟨by decide, c2_amended [[], [], [0, 1], [0, 2]] (fun i rs => i + rs.sum) 3 (by decide)⟩

end Expressions
